import Mathlib

/-!
Verification of the in-memory document search engine of the `sloppysource`
repository (`src/components/DocumentSearchModal.tsx`).

Strings are embedded as `List Char` (one entry per Unicode scalar value; every
concrete string in this development lies in the Basic Multilingual Plane, where
this agrees with JavaScript's UTF-16 code-unit view). JavaScript numbers are
embedded as `Nat`/`Int` (all quantities in the source are small integers).
The host regular-expression engine is embedded as an abstract interface
(`JsRegexExec`) capturing the guarantees of ECMAScript `RegExp.exec` with the
`g` flag, together with concrete instances for the literal patterns used in
the theorems.
-/

namespace SloppySource

/-- Strings of the embedded program: one `Char` per code point. -/
abbrev Str := List Char

/-- Coercion helper from Lean string literals. -/
def chars (s : String) : Str := s.data

/-- Embeds `SearchOptions` from DocumentSearchModal.tsx. -/
structure SearchOptions where
  caseSensitive : Bool
  wholeWord : Bool
  regex : Bool
deriving DecidableEq, Repr

/-- Embeds `LineMatch` from DocumentSearchModal.tsx. -/
structure LineMatch where
  lineNumber : Nat
  occurrences : Nat
  preview : Str
deriving DecidableEq, Repr

/-- Embeds `SearchResult` from DocumentSearchModal.tsx.  The totals are `Int`
because the source stores the sentinel `-1` in them under truncation. -/
structure SearchResult where
  «matches» : List LineMatch
  totalOccurrences : Int
  totalMatchedLines : Int
  isTruncated : Bool
  errorMessage : Option Str
deriving DecidableEq, Repr

/-- Embeds `const MAX_MATCH_LINES = 500` (DocumentSearchModal.tsx line 30). -/
def MAX_MATCH_LINES : Nat := 500

/-- Embeds `const SNIPPET_PADDING = 40` (DocumentSearchModal.tsx line 32). -/
def SNIPPET_PADDING : Nat := 40

/-- Embeds `String.prototype.toLowerCase` character-wise, restricted to the
code points that have a simple one-to-one lowercase mapping in Basic Latin and
Latin-1 (`A`–`Z` and `À`–`Þ` except `×`); other characters are returned
unchanged.  Every concrete string in this development is within this range. -/
def jsToLower (c : Char) : Char :=
  if 'A' ≤ c ∧ c ≤ 'Z' then Char.ofNat (c.toNat + 32)
  else if 0xC0 ≤ c.toNat ∧ c.toNat ≤ 0xDE ∧ c.toNat ≠ 0xD7 then
    Char.ofNat (c.toNat + 32)
  else c

/-- Lowercasing of a whole string (`line.toLowerCase()` in the source). -/
def toLowerStr (s : Str) : Str := s.map jsToLower

/-- The character class removed by `String.prototype.trim`: ECMAScript
WhiteSpace and LineTerminator code points. -/
def jsIsTrimWhite (c : Char) : Bool :=
  let n := c.toNat
  (0x09 ≤ n && n ≤ 0x0D) || n == 0x20 || n == 0xA0 || n == 0x1680 ||
  (0x2000 ≤ n && n ≤ 0x200A) || n == 0x2028 || n == 0x2029 ||
  n == 0x202F || n == 0x205F || n == 0x3000 || n == 0xFEFF

/-- Embeds `query.trim()` (DocumentSearchModal.tsx line 72). -/
def jsTrim (s : Str) : Str :=
  ((s.dropWhile jsIsTrimWhite).reverse.dropWhile jsIsTrimWhite).reverse

/-- Holds when `q` occurs in `line` starting at position `p`. -/
def matchesAt (line q : Str) (p : Nat) : Bool :=
  List.isPrefixOf q (line.drop p)

/-- Linear scan underlying `String.prototype.indexOf(q, i)`: try positions
`i, i+1, …` while a match could still fit.  The fuel argument bounds the
recursion; `jsIndexOf` supplies enough fuel for the scan to run to the end of
the line. -/
def firstOccurFromAux (line q : Str) : Nat → Nat → Option Nat
  | _, 0 => none
  | i, fuel + 1 =>
    if i + q.length ≤ line.length then
      if matchesAt line q i then some i
      else firstOccurFromAux line q (i + 1) fuel
    else none

/-- Embeds `searchTarget.indexOf(normalizedQuery, fromIndex)` from
DocumentSearchModal.tsx line 388 (`none` embeds the return value `-1`).
The source only calls it with `fromIndex < searchTarget.length` and a
non-empty query, where this model is exact. -/
def jsIndexOf (line q : Str) (i : Nat) : Option Nat :=
  firstOccurFromAux line q i (line.length + 1 - i)

/-- Embeds `isWordCharacter` from DocumentSearchModal.tsx lines 470–476: the test
`/[\p{L}\p{N}_]/u.test(char)`.  The Unicode property tables are embedded
faithfully for code points below U+0250 (Basic Latin, Latin-1 Supplement,
Latin Extended-A and Extended-B); code points above that range are mapped to
`false`.  Every concrete string in this development is within the embedded
range.  (The `!char` guard of the source corresponds to the out-of-bounds
cases handled in `hasWordBoundaries` below.) -/
def isWordCharacter (c : Char) : Bool :=
  let n := c.toNat
  (0x30 ≤ n && n ≤ 0x39) || (0x41 ≤ n && n ≤ 0x5A) || n == 0x5F ||
  (0x61 ≤ n && n ≤ 0x7A) || n == 0xAA || n == 0xB2 || n == 0xB3 ||
  n == 0xB5 || n == 0xB9 || n == 0xBA || (0xBC ≤ n && n ≤ 0xBE) ||
  (0xC0 ≤ n && n ≤ 0xD6) || (0xD8 ≤ n && n ≤ 0xF6) ||
  (0xF8 ≤ n && n ≤ 0x24F)

/-- Embeds `hasWordBoundaries` from DocumentSearchModal.tsx lines 460–468:
`line[index - 1]` and `line[index + matchLength]` with out-of-bounds reading
as the empty string, which `isWordCharacter` rejects. -/
def hasWordBoundaries (line : Str) (index matchLength : Nat) : Bool :=
  let before := if index = 0 then false
    else ((line.get? (index - 1)).map isWordCharacter).getD false
  let after := ((line.get? (index + matchLength)).map isWordCharacter).getD false
  !before && !after

/-- Embeds `createPreview` from DocumentSearchModal.tsx lines 440–458.  `index` is
`Int` because the call sites pass a `firstMatchIndex` that is initialised to
`-1`; `Math.max(0, index)` becomes `Int.toNat (max 0 index)`, and the `Nat`
subtraction in `sliceStart` embeds `Math.max(0, safeIndex - SNIPPET_PADDING)`. -/
def createPreview (line : Str) (index : Int) (matchLength : Nat) : Str :=
  if line = [] then chars "(empty line)"
  else
    let safeIndex : Nat := (max 0 index).toNat
    let safeLength : Nat := max 1 matchLength
    let sliceStart : Nat := safeIndex - SNIPPET_PADDING
    let sliceEnd : Nat := min line.length (safeIndex + safeLength + SNIPPET_PADDING)
    let pre : Str := if 0 < sliceStart then chars "..." else []
    let suf : Str := if sliceEnd < line.length then chars "..." else []
    pre ++ ((line.drop sliceStart).take (sliceEnd - sliceStart)) ++ suf

/-- Body of the `while` loop of `searchBySubstring` (DocumentSearchModal.tsx
lines 387–406): repeated `indexOf` scanning from `fromIndex`, counting
qualifying occurrences and recording the first qualifying match index
(`Int`, initialised to `-1`).  The fuel bounds the loop; each iteration
advances `fromIndex` by at least one, so `target.length + 1` units suffice. -/
def scanLineSubAux (origLine target nq : Str) (ww : Bool) :
    Nat → Nat → Int → Nat → Nat × Int
  | _, occ, fIdx, 0 => (occ, fIdx)
  | fromIndex, occ, fIdx, fuel + 1 =>
    if fromIndex < target.length then
      match jsIndexOf target nq fromIndex with
      | none => (occ, fIdx)
      | some p =>
        let counts := !ww || hasWordBoundaries origLine p nq.length
        let occ' := if counts then occ + 1 else occ
        let fIdx' := if counts && fIdx == -1 then (p : Int) else fIdx
        scanLineSubAux origLine target nq ww (p + max 1 nq.length) occ' fIdx' fuel
    else (occ, fIdx)

/-- Per-line work of `searchBySubstring` (DocumentSearchModal.tsx lines
381–406): normalise the line, scan it, and return
`(occurrences, firstMatchIndex, previewLength)` where `previewLength` is the
`query.length` passed to `createPreview` at line 425. -/
def lineScanSub (query : Str) (o : SearchOptions) (line : Str) : Nat × Int × Nat :=
  let nq := if o.caseSensitive then query else toLowerStr query
  let target := if o.caseSensitive then line else toLowerStr line
  let r := scanLineSubAux line target nq o.wholeWord 0 0 (-1) (target.length + 1)
  (r.1, r.2, query.length)

/-- The `LineMatch` pushed by the search loops for the zero-based-indexed
line `p` (DocumentSearchModal.tsx lines 354–358 and 422–426): `lineNumber`
is the one-based index, and the preview is built from the scan's first-match
index and preview length. -/
def mkLineMatch (scan : Str → Nat × Int × Nat) (p : Nat × Str) : LineMatch :=
  { lineNumber := p.1 + 1
    occurrences := (scan p.2).1
    preview := createPreview p.2 (scan p.2).2.1 (scan p.2).2.2 }

/-- The result-assembly loop shared verbatim by `searchBySubstring`
(DocumentSearchModal.tsx lines 380–437) and `searchByRegex` (lines 316–369):
walk the lines in order carrying the accumulated `«matches»`; skip lines with
no occurrences; return the truncated sentinel result the moment a matching
line is found while `«matches».length >= MAX_MATCH_LINES`; otherwise push a
`LineMatch` and continue; at the end compute the totals by reduction over
`«matches»`.  The per-line scan is a parameter returning
`(occurrences, firstMatchIndex, previewLength)`. -/
def searchLoop (scan : Str → Nat × Int × Nat) :
    List Str → Nat → List LineMatch → SearchResult
  | [], _, «matches» =>
    { «matches» := «matches»
      totalOccurrences := ((«matches».map (·.occurrences)).sum : Nat)
      totalMatchedLines := («matches».length : Nat)
      isTruncated := false
      errorMessage := none }
  | line :: rest, index, «matches» =>
    if (scan line).1 = 0 then searchLoop scan rest (index + 1) «matches»
    else if MAX_MATCH_LINES ≤ «matches».length then
      { «matches» := «matches»
        totalOccurrences := -1
        totalMatchedLines := -1
        isTruncated := true
        errorMessage := none }
    else
      searchLoop scan rest (index + 1) («matches» ++ [mkLineMatch scan (index, line)])

/-- Embeds `searchBySubstring` from DocumentSearchModal.tsx lines 372–438. -/
def searchBySubstring (lines : List Str) (query : Str) (o : SearchOptions) :
    SearchResult :=
  searchLoop (lineScanSub query o) lines 0 []

/-- The empty-query idle result (DocumentSearchModal.tsx lines 277–283). -/
def idleResult : SearchResult :=
  { «matches» := []
    totalOccurrences := 0
    totalMatchedLines := 0
    isTruncated := false
    errorMessage := none }

/-- Abstract interface of a compiled ECMAScript `RegExp` with the `g` flag,
as used by `searchByRegex`: `exec s l` embeds setting `lastIndex := l` and
calling `regex.exec(s)`, returning `some (i, len)` for a match of length
`len` at index `i` (and the engine then sets `lastIndex := i + len`), or
`none` when there is no further match.  The three laws are the ECMAScript
guarantees the source relies on: a match starts at or after `lastIndex`,
lies within the string, and `exec` fails once `lastIndex` exceeds the
string length. -/
structure JsRegexExec where
  exec : Str → Nat → Option (Nat × Nat)
  exec_ge : ∀ s l i len, exec s l = some (i, len) → l ≤ i
  exec_inBounds : ∀ s l i len, exec s l = some (i, len) → i + len ≤ s.length
  exec_bound : ∀ s l, s.length < l → exec s l = none

/-- Body of the `while (result)` loop of `searchByRegex`
(DocumentSearchModal.tsx lines 325–338): count matches, record the first
match's index and `Math.max(1, length)`, advance `lastIndex` past each match
and by one extra position after a zero-length match (lines 333–335).  The
fuel bounds the loop and `none` signals fuel exhaustion; the termination
theorem below shows fuel `s.length + 2` always suffices. -/
def regexScanAux (R : JsRegexExec) (line : Str) :
    Nat → Nat → Int → Nat → Nat → Option (Nat × Int × Nat)
  | _, _, _, _, 0 => none
  | lastIndex, occ, fIdx, fLen, fuel + 1 =>
    match R.exec line lastIndex with
    | none => some (occ, fIdx, fLen)
    | some (i, len) =>
      let fIdx' := if fIdx == -1 then (i : Int) else fIdx
      let fLen' := if fIdx == -1 then max 1 len else fLen
      let lastIndex' := i + len + (if len = 0 then 1 else 0)
      regexScanAux R line lastIndex' (occ + 1) fIdx' fLen' fuel

/-- Per-line work of `searchByRegex` (DocumentSearchModal.tsx lines 317–338)
run with the always-sufficient fuel `line.length + 2`; the default value of
`getD` is unreachable (see the termination theorem). -/
def lineScanRegex (R : JsRegexExec) (line : Str) : Nat × Int × Nat :=
  (regexScanAux R line 0 0 (-1) 0 (line.length + 2)).getD (0, -1, 0)

/-- The regex source string built at DocumentSearchModal.tsx line 299 when
`wholeWord` is set: `` `\b(?:${query})\b` ``. -/
def wrapWholeWord (query : Str) : Str :=
  chars "\\b(?:" ++ query ++ chars ")\\b"

/-- The regex source string of DocumentSearchModal.tsx line 299. -/
def regexSource (query : Str) (o : SearchOptions) : Str :=
  if o.wholeWord then wrapWholeWord query else query

/-- The regex flags of DocumentSearchModal.tsx line 298. -/
def regexFlags (o : SearchOptions) : Str :=
  if o.caseSensitive then chars "g" else chars "gi"

/-- The result returned when `new RegExp` throws (DocumentSearchModal.tsx
lines 304–312). -/
def invalidRegexResult : SearchResult :=
  { «matches» := []
    totalOccurrences := 0
    totalMatchedLines := 0
    isTruncated := false
    errorMessage := some (chars "Invalid regular expression.") }

/-- Embeds `searchByRegex` from DocumentSearchModal.tsx lines 293–370.  The host
`RegExp` constructor is abstracted as the `compile` parameter: `compile
source flags = none` embeds `new RegExp(source, flags)` throwing, and
`some R` embeds a successful compilation to the engine `R`. -/
def searchByRegex (compile : Str → Str → Option JsRegexExec)
    (lines : List Str) (query : Str) (o : SearchOptions) : SearchResult :=
  match compile (regexSource query o) (regexFlags o) with
  | none => invalidRegexResult
  | some R => searchLoop (lineScanRegex R) lines 0 []

/-- Embeds `searchMarkdownLines` from DocumentSearchModal.tsx lines 271–291, with
the host regex compiler passed explicitly. -/
def searchMarkdownLines (compile : Str → Str → Option JsRegexExec)
    (lines : List Str) (query : Str) (o : SearchOptions) : SearchResult :=
  if query = [] then idleResult
  else if o.regex then searchByRegex compile lines query o
  else searchBySubstring lines query o

/-- The search entry as the component invokes it (DocumentSearchModal.tsx
lines 71–74): the raw query is trimmed before `searchMarkdownLines` runs. -/
def searchDocument (compile : Str → Str → Option JsRegexExec)
    (lines : List Str) (rawQuery : Str) (o : SearchOptions) : SearchResult :=
  searchMarkdownLines compile lines (jsTrim rawQuery) o

/-! ### Specification-side characterisations

These definitions restate, in the spec's own vocabulary, what the scanning
loops are claimed to compute; the claim theorems relate them to the source
embedding above. -/

/-- The least position `p` with `i ≤ p` at which `q` occurs in `line`,
characterised by order on `List.range` rather than by a cursor scan. -/
def leastMatchFrom (line q : Str) (i : Nat) : Option Nat :=
  ((List.range (line.length + 1)).filter
    (fun p => decide (i ≤ p) && matchesAt line q p)).head?

/-- The positions visited by the left-to-right non-overlapping scan described
in the spec: from cursor `i < line.length`, take the least occurrence `p ≥ i`
and resume at `p + max 1 q.length`.  Fuel-bounded; `specScanPositions`
supplies fuel `line.length + 1`, which suffices because the cursor strictly
increases. -/
def specScanPositionsAux (line q : Str) : Nat → Nat → List Nat
  | _, 0 => []
  | i, fuel + 1 =>
    if i < line.length then
      match leastMatchFrom line q i with
      | none => []
      | some p => p :: specScanPositionsAux line q (p + max 1 q.length) fuel
    else []

/-- All candidate match positions of the spec's repeated scan. -/
def specScanPositions (line q : Str) : List Nat :=
  specScanPositionsAux line q 0 (line.length + 1)

/-- The ECMAScript word-character class used by the `\b` assertion
(ECMA-262 `IsWordChar`): exactly `[A-Za-z0-9_]`, independent of the `i` and
`u` flags. -/
def isAsciiWordChar (c : Char) : Bool :=
  let n := c.toNat
  (0x30 ≤ n && n ≤ 0x39) || (0x41 ≤ n && n ≤ 0x5A) || n == 0x5F ||
  (0x61 ≤ n && n ≤ 0x7A)

/-- The ECMAScript `\b` assertion at position `p` of `s`: `true` when
exactly one of the adjacent characters (out-of-bounds reads as non-word) is
in `[A-Za-z0-9_]`. -/
def jsWordBoundary (s : Str) (p : Nat) : Bool :=
  let before := if p = 0 then false
    else ((s.get? (p - 1)).map isAsciiWordChar).getD false
  let at' := ((s.get? p).map isAsciiWordChar).getD false
  before != at'

/-- Number of consecutive copies of `c` at the head of `s`. -/
def leadingRun (c : Char) : Str → Nat
  | [] => 0
  | d :: s => if d = c then leadingRun c s + 1 else 0

theorem leadingRun_le (c : Char) : ∀ s : Str, leadingRun c s ≤ s.length := by
  intro s
  induction s with
  | nil => simp [leadingRun]
  | cons d s ih =>
    by_cases h : d = c
    · simp [leadingRun, h]
      omega
    · simp [leadingRun, h]

/-- Model of the compiled `/a*/g`: at any `lastIndex ≤ s.length` the pattern
matches at `lastIndex` itself, consuming the maximal run of `a` there
(possibly of length zero). -/
def aStarExec : JsRegexExec where
  exec s l := if l ≤ s.length then some (l, leadingRun 'a' (s.drop l)) else none
  exec_ge := by
    intro s l i len h
    by_cases hl : l ≤ s.length <;> simp [hl] at h
    omega
  exec_inBounds := by
    intro s l i len h
    by_cases hl : l ≤ s.length <;> simp [hl] at h
    obtain ⟨rfl, rfl⟩ := h
    have := leadingRun_le 'a' (s.drop l)
    simp at this
    omega
  exec_bound := by
    intro s l h
    simp
    omega

/-- The search `leastMatchFrom` finds only in-range occurrences at or after `i`. -/
theorem leastMatchFrom_spec {line q : Str} {i p : Nat}
    (h : leastMatchFrom line q i = some p) :
    i ≤ p ∧ p ≤ line.length ∧ matchesAt line q p = true := by
  unfold leastMatchFrom at h
  have hm := List.mem_of_mem_head? (Option.mem_def.mpr h)
  rw [List.mem_filter] at hm
  obtain ⟨hr, hc⟩ := hm
  rw [List.mem_range] at hr
  simp only [Bool.and_eq_true, decide_eq_true_eq] at hc
  exact ⟨hc.1, by omega, hc.2⟩

/-- A match within bounds ends within bounds. -/
theorem matchesAt_bound {line q : Str} {p : Nat}
    (h : matchesAt line q p = true) (hp : p ≤ line.length) :
    p + q.length ≤ line.length := by
  unfold matchesAt at h
  have hpre : q <+: line.drop p := by
    rw [← List.isPrefixOf_iff_prefix]
    exact h
  have := hpre.length_le
  rw [List.length_drop] at this
  omega

/-- Model of the compiled `/LIT/g` for a pattern `LIT` of plain literal
characters (no metacharacters), with the `g` flag only (case-sensitive):
`exec` finds the leftmost occurrence of `q` at or after `lastIndex`. -/
def literalExec (q : Str) : JsRegexExec where
  exec s l :=
    if s.length < l then none
    else (leastMatchFrom s q l).map (fun p => (p, q.length))
  exec_ge := by
    intro s l i len h
    dsimp only at h
    by_cases hl : s.length < l
    · rw [if_pos hl] at h
      exact absurd h (by simp)
    · rw [if_neg hl, Option.map_eq_some'] at h
      obtain ⟨p, hp, hpl⟩ := h
      obtain ⟨h1, -, -⟩ := leastMatchFrom_spec hp
      cases hpl
      exact h1
  exec_inBounds := by
    intro s l i len h
    dsimp only at h
    by_cases hl : s.length < l
    · rw [if_pos hl] at h
      exact absurd h (by simp)
    · rw [if_neg hl, Option.map_eq_some'] at h
      obtain ⟨p, hp, hpl⟩ := h
      obtain ⟨-, h2, h3⟩ := leastMatchFrom_spec hp
      cases hpl
      exact matchesAt_bound h3 h2
  exec_bound := by
    intro s l h
    simp [h]

/-- The leftmost position at or after `l` where the literal `q` occurs in
`s` flanked by ECMAScript `\b` assertions on both sides (the way the engine
resolves `/\b(?:LIT)\b/` for a metacharacter-free `LIT`). -/
def leastBoundedMatchFrom (s q : Str) (l : Nat) : Option Nat :=
  ((List.range (s.length + 1)).filter
    (fun p => decide (l ≤ p) && matchesAt s q p &&
      jsWordBoundary s p && jsWordBoundary s (p + q.length))).head?

/-- The search `leastBoundedMatchFrom` finds only in-range, boundary-flanked
occurrences at or after `l`. -/
theorem leastBoundedMatchFrom_spec {s q : Str} {l p : Nat}
    (h : leastBoundedMatchFrom s q l = some p) :
    l ≤ p ∧ p ≤ s.length ∧ matchesAt s q p = true ∧
      jsWordBoundary s p = true ∧ jsWordBoundary s (p + q.length) = true := by
  unfold leastBoundedMatchFrom at h
  have hm := List.mem_of_mem_head? (Option.mem_def.mpr h)
  rw [List.mem_filter] at hm
  obtain ⟨hr, hc⟩ := hm
  rw [List.mem_range] at hr
  simp only [Bool.and_eq_true, decide_eq_true_eq] at hc
  exact ⟨hc.1.1.1, by omega, hc.1.1.2, hc.1.2, hc.2⟩

/-- Model of the compiled `/\b(?:LIT)\b/g` for a pattern `LIT` of plain
literal characters, with the `g` flag only. -/
def boundedLiteralExec (q : Str) : JsRegexExec where
  exec s l :=
    if s.length < l then none
    else (leastBoundedMatchFrom s q l).map (fun p => (p, q.length))
  exec_ge := by
    intro s l i len h
    dsimp only at h
    by_cases hl : s.length < l
    · rw [if_pos hl] at h
      exact absurd h (by simp)
    · rw [if_neg hl, Option.map_eq_some'] at h
      obtain ⟨p, hp, hpl⟩ := h
      obtain ⟨h1, -, -, -, -⟩ := leastBoundedMatchFrom_spec hp
      cases hpl
      exact h1
  exec_inBounds := by
    intro s l i len h
    dsimp only at h
    by_cases hl : s.length < l
    · rw [if_pos hl] at h
      exact absurd h (by simp)
    · rw [if_neg hl, Option.map_eq_some'] at h
      obtain ⟨p, hp, hpl⟩ := h
      obtain ⟨-, h2, h3, -, -⟩ := leastBoundedMatchFrom_spec hp
      cases hpl
      exact matchesAt_bound h3 h2
  exec_bound := by
    intro s l h
    simp [h]

/-! ### Generic properties of the result-assembly loop -/

/-- The indexed lines the loop records: those whose scan finds at least one
occurrence, in document order. -/
def matchedEnum (scan : Str → Nat × Int × Nat) (lines : List Str) (n : Nat) :
    List (Nat × Str) :=
  (List.enumFrom n lines).filter (fun p => decide (0 < (scan p.2).1))

theorem searchLoop_truncates (scan : Str → Nat × Int × Nat) :
    ∀ (lines : List Str) (n : Nat) (acc : List LineMatch),
      acc.length ≤ MAX_MATCH_LINES →
      MAX_MATCH_LINES < acc.length + (matchedEnum scan lines n).length →
      searchLoop scan lines n acc =
        { «matches» := acc ++
            (((matchedEnum scan lines n).take (MAX_MATCH_LINES - acc.length)).map
              (mkLineMatch scan))
          totalOccurrences := -1
          totalMatchedLines := -1
          isTruncated := true
          errorMessage := none } := by
  intro lines
  induction lines with
  | nil =>
    intro n acc hacc hov
    simp [matchedEnum] at hov
    omega
  | cons line rest ih =>
    intro n acc hacc hov
    by_cases h0 : (scan line).1 = 0
    · have hme : matchedEnum scan (line :: rest) n = matchedEnum scan rest (n + 1) := by
        simp [matchedEnum, List.enumFrom_cons, h0]
      rw [hme] at hov ⊢
      simp only [searchLoop, if_pos h0]
      exact ih (n + 1) acc hacc hov
    · have hme : matchedEnum scan (line :: rest) n =
          (n, line) :: matchedEnum scan rest (n + 1) := by
        simp [matchedEnum, List.enumFrom_cons, Nat.pos_of_ne_zero h0]
      rw [hme] at hov ⊢
      simp only [searchLoop, if_neg h0]
      by_cases hcap : MAX_MATCH_LINES ≤ acc.length
      · rw [if_pos hcap]
        have : MAX_MATCH_LINES - acc.length = 0 := by omega
        simp [this]
      · rw [if_neg hcap]
        have hlen : (acc ++ [mkLineMatch scan (n, line)]).length = acc.length + 1 := by
          simp
        have hrec := ih (n + 1) (acc ++ [mkLineMatch scan (n, line)])
          (by rw [hlen]; omega)
          (by rw [hlen]; simp at hov ⊢; omega)
        rw [hrec]
        have hk : MAX_MATCH_LINES - acc.length = (MAX_MATCH_LINES - (acc.length + 1)) + 1 := by
          omega
        rw [hlen, hk]
        simp [List.take_succ_cons]

theorem searchLoop_not_truncated (scan : Str → Nat × Int × Nat) :
    ∀ (lines : List Str) (n : Nat) (acc : List LineMatch),
      (searchLoop scan lines n acc).isTruncated = false →
      (searchLoop scan lines n acc).totalOccurrences =
        ((((searchLoop scan lines n acc).«matches».map (·.occurrences)).sum : Nat) : Int) ∧
      (searchLoop scan lines n acc).totalMatchedLines =
        (((searchLoop scan lines n acc).«matches».length : Nat) : Int) ∧
      (searchLoop scan lines n acc).errorMessage = none := by
  intro lines
  induction lines with
  | nil =>
    intro n acc _
    simp [searchLoop]
  | cons line rest ih =>
    intro n acc h
    by_cases h0 : (scan line).1 = 0
    · simp only [searchLoop, if_pos h0] at h ⊢
      exact ih (n + 1) acc h
    · by_cases hcap : MAX_MATCH_LINES ≤ acc.length
      · simp only [searchLoop, if_neg h0, if_pos hcap] at h
        simp at h
      · simp only [searchLoop, if_neg h0, if_pos hcap, if_neg hcap] at h ⊢
        exact ih (n + 1) _ h

theorem searchLoop_trunc_cap (scan : Str → Nat × Int × Nat) :
    ∀ (lines : List Str) (n : Nat) (acc : List LineMatch),
      acc.length ≤ MAX_MATCH_LINES →
      (searchLoop scan lines n acc).isTruncated = true →
      (searchLoop scan lines n acc).«matches».length = MAX_MATCH_LINES ∧
      (searchLoop scan lines n acc).errorMessage = none ∧
      (searchLoop scan lines n acc).totalOccurrences = -1 ∧
      (searchLoop scan lines n acc).totalMatchedLines = -1 := by
  intro lines
  induction lines with
  | nil =>
    intro n acc _ h
    simp [searchLoop] at h
  | cons line rest ih =>
    intro n acc hacc h
    by_cases h0 : (scan line).1 = 0
    · simp only [searchLoop, if_pos h0] at h ⊢
      exact ih (n + 1) acc hacc h
    · by_cases hcap : MAX_MATCH_LINES ≤ acc.length
      · simp only [searchLoop, if_neg h0, if_pos hcap] at h ⊢
        exact ⟨by omega, by trivial, by trivial, by trivial⟩
      · simp only [searchLoop, if_neg h0, if_neg hcap] at h ⊢
        exact ih (n + 1) _ (by simp; omega) h

theorem searchLoop_mem (scan : Str → Nat × Int × Nat) :
    ∀ (lines : List Str) (n : Nat) (acc : List LineMatch)
      (m : LineMatch), m ∈ (searchLoop scan lines n acc).«matches» →
      m ∈ acc ∨ ∃ p ∈ List.enumFrom n lines, 0 < (scan p.2).1 ∧ m = mkLineMatch scan p := by
  intro lines
  induction lines with
  | nil =>
    intro n acc m h
    simp [searchLoop] at h
    exact Or.inl h
  | cons line rest ih =>
    intro n acc m h
    by_cases h0 : (scan line).1 = 0
    · simp only [searchLoop, if_pos h0] at h
      rcases ih (n + 1) acc m h with hl | ⟨p, hp, hpos, hm⟩
      · exact Or.inl hl
      · exact Or.inr ⟨p, by simp [List.enumFrom_cons]; right; exact hp, hpos, hm⟩
    · by_cases hcap : MAX_MATCH_LINES ≤ acc.length
      · simp only [searchLoop, if_neg h0, if_pos hcap] at h
        exact Or.inl h
      · simp only [searchLoop, if_neg h0, if_neg hcap] at h
        rcases ih (n + 1) _ m h with hl | ⟨p, hp, hpos, hm⟩
        · rw [List.mem_append] at hl
          rcases hl with hl | hl
          · exact Or.inl hl
          · refine Or.inr ⟨(n, line), by simp [List.enumFrom_cons], Nat.pos_of_ne_zero h0, ?_⟩
            simpa using hl
        · exact Or.inr ⟨p, by simp [List.enumFrom_cons]; right; exact hp, hpos, hm⟩

/-- Membership in `enumFrom` recovers the line from the index. -/
theorem enumFrom_get? {i n : Nat} {line : Str} {lines : List Str}
    (h : (i, line) ∈ List.enumFrom n lines) :
    n ≤ i ∧ lines.get? (i - n) = some line := by
  obtain ⟨h1, h2, h3⟩ := List.mem_enumFrom h
  refine ⟨h1, ?_⟩
  rw [List.get?_eq_getElem?, List.getElem?_eq_getElem (by omega)]
  exact congrArg some h3.symm

/-! ### The scan loops compute the spec-side repeated scan -/

theorem head?_filter_range_least {n a : Nat} {pred : Nat → Bool}
    (ha : a < n) (hpa : pred a = true) (hmin : ∀ b < a, pred b = false) :
    ((List.range n).filter pred).head? = some a := by
  have hsplit : n = a + (n - a) := by omega
  rw [hsplit, List.range_add, List.filter_append]
  have h1 : (List.range a).filter pred = [] := by
    rw [List.filter_eq_nil_iff]
    intro b hb
    simp [hmin b (List.mem_range.mp hb)]
  rw [h1, List.nil_append]
  obtain ⟨k, hk⟩ : ∃ k, n - a = k + 1 := ⟨n - a - 1, by omega⟩
  rw [hk, List.range_succ_eq_map, List.map_cons]
  rw [List.filter_cons_of_pos (by simpa using hpa)]
  rfl

theorem head?_filter_range_none {n : Nat} {pred : Nat → Bool}
    (h : ∀ b < n, pred b = false) :
    ((List.range n).filter pred).head? = none := by
  have h1 : (List.range n).filter pred = [] := by
    rw [List.filter_eq_nil_iff]
    intro b hb
    simp [h b (List.mem_range.mp hb)]
  rw [h1]
  rfl

theorem leastMatchFrom_none_of_gt {line q : Str} {i : Nat}
    (h : line.length < i) : leastMatchFrom line q i = none := by
  unfold leastMatchFrom
  apply head?_filter_range_none
  intro b hb
  have : ¬ i ≤ b := by omega
  simp [this]

/-- One step of the least-occurrence search: either `i` itself matches (and
is least) or the least occurrence from `i` is the least occurrence from
`i + 1`. -/
theorem leastMatchFrom_step {line q : Str} {i : Nat} :
    leastMatchFrom line q i =
      if i ≤ line.length ∧ matchesAt line q i = true then some i
      else leastMatchFrom line q (i + 1) := by
  by_cases hc : i ≤ line.length ∧ matchesAt line q i = true
  · rw [if_pos hc]
    unfold leastMatchFrom
    apply head?_filter_range_least (by omega)
    · simp [hc.2]
    · intro b hb
      have : ¬ i ≤ b := by omega
      simp [this]
  · rw [if_neg hc]
    unfold leastMatchFrom
    apply congrArg
    apply List.filter_congr
    intro b hb
    rw [List.mem_range] at hb
    by_cases hbi : i + 1 ≤ b
    · have : i ≤ b := by omega
      simp [this, hbi]
    · by_cases hbe : b = i
      · subst hbe
        have hm : matchesAt line q b = false := by
          rcases Bool.eq_false_or_eq_true (matchesAt line q b) with h | h
          · exact absurd ⟨by omega, h⟩ hc
          · exact h
        simp [hm]
      · have h1 : ¬ i ≤ b := by omega
        simp [h1, hbi]

/-- A match cannot start beyond `line.length - q.length`. -/
theorem matchesAt_false_of_overflow {line q : Str} {p : Nat}
    (hp : p ≤ line.length) (h : line.length < p + q.length) :
    matchesAt line q p = false := by
  rcases Bool.eq_false_or_eq_true (matchesAt line q p) with hm | hm
  · have := matchesAt_bound hm hp
    omega
  · exact hm

/-- The cursor scan of `String.prototype.indexOf` computes the least
occurrence position. -/
theorem jsIndexOf_eq_leastMatchFrom (line q : Str) :
    ∀ i, jsIndexOf line q i = leastMatchFrom line q i := by
  suffices h : ∀ fuel i, fuel = line.length + 1 - i →
      firstOccurFromAux line q i fuel = leastMatchFrom line q i by
    intro i
    exact h (line.length + 1 - i) i rfl
  intro fuel
  induction fuel with
  | zero =>
    intro i hf
    have hi : line.length < i := by omega
    rw [leastMatchFrom_none_of_gt hi]
    rfl
  | succ fuel ih =>
    intro i hf
    have hi : i ≤ line.length := by omega
    simp only [firstOccurFromAux]
    by_cases hb : i + q.length ≤ line.length
    · rw [if_pos hb]
      by_cases hm : matchesAt line q i = true
      · rw [if_pos hm, leastMatchFrom_step, if_pos ⟨hi, hm⟩]
      · rw [if_neg hm, leastMatchFrom_step,
          if_neg (by intro hcon; exact hm hcon.2)]
        exact ih (i + 1) (by omega)
    · rw [if_neg hb]
      symm
      unfold leastMatchFrom
      apply head?_filter_range_none
      intro b hbn
      by_cases hib : i ≤ b
      · have : matchesAt line q b = false :=
          matchesAt_false_of_overflow (by omega) (by omega)
        simp [this]
      · simp [hib]

/-- The counting loop of `searchBySubstring` counts exactly the accepted
positions of the spec-side repeated scan (same fuel on both sides). -/
theorem scanLineSubAux_count (origLine target nq : Str) (ww : Bool) :
    ∀ (fuel i : Nat) (occ : Nat) (fIdx : Int),
      (scanLineSubAux origLine target nq ww i occ fIdx fuel).1 =
        occ + ((specScanPositionsAux target nq i fuel).filter
          (fun p => !ww || hasWordBoundaries origLine p nq.length)).length := by
  intro fuel
  induction fuel with
  | zero =>
    intro i occ fIdx
    simp [scanLineSubAux, specScanPositionsAux]
  | succ fuel ih =>
    intro i occ fIdx
    simp only [scanLineSubAux, specScanPositionsAux]
    by_cases h : i < target.length
    · rw [if_pos h, if_pos h, jsIndexOf_eq_leastMatchFrom]
      cases hm : leastMatchFrom target nq i with
      | none => simp
      | some p =>
        simp only []
        rw [ih, List.filter_cons]
        by_cases hc : (!ww || hasWordBoundaries origLine p nq.length) = true
        · rw [if_pos hc, if_pos hc]
          simp only [List.length_cons]
          omega
        · rw [if_neg hc, if_neg hc]
    · rw [if_neg h, if_neg h]
      simp

/-- The substring counting loop never decreases the accumulated count. -/
theorem scanLineSubAux_occ_le (origLine target nq : Str) (ww : Bool) :
    ∀ (fuel i : Nat) (occ : Nat) (fIdx : Int),
      occ ≤ (scanLineSubAux origLine target nq ww i occ fIdx fuel).1 := by
  intro fuel
  induction fuel with
  | zero =>
    intro i occ fIdx
    simp [scanLineSubAux]
  | succ fuel ih =>
    intro i occ fIdx
    simp only [scanLineSubAux]
    by_cases h : i < target.length
    · rw [if_pos h]
      cases hm : jsIndexOf target nq i with
      | none => simp
      | some p =>
        simp only []
        refine le_trans ?_ (ih _ _ _)
        by_cases hc : (!ww || hasWordBoundaries origLine p nq.length) = true
        · rw [if_pos hc]
          omega
        · rw [if_neg hc]
    · rw [if_neg h]

/-! ### Termination of the regex scanning loop -/

/-- With fuel `line.length + 2 - lastIndex`, the regex scanning loop always
reaches the no-more-matches state: every zero-length match advances the
cursor by one extra position (DocumentSearchModal.tsx lines 333–335), so the
cursor strictly increases and the engine stops once it passes the end. -/
theorem regexScanAux_isSome (R : JsRegexExec) (line : Str) :
    ∀ (fuel l occ : Nat) (fIdx : Int) (fLen : Nat),
      l ≤ line.length + 1 → line.length + 2 ≤ l + fuel →
      (regexScanAux R line l occ fIdx fLen fuel).isSome = true := by
  intro fuel
  induction fuel with
  | zero =>
    intro l occ fIdx fLen hl hf
    omega
  | succ fuel ih =>
    intro l occ fIdx fLen hl hf
    simp only [regexScanAux]
    cases hx : R.exec line l with
    | none => simp
    | some r =>
      obtain ⟨i, len⟩ := r
      have hge := R.exec_ge line l i len hx
      have hin := R.exec_inBounds line l i len hx
      simp only []
      apply ih
      · by_cases hz : len = 0
        · simp [hz]
          omega
        · simp [hz]
          omega
      · by_cases hz : len = 0
        · simp [hz]
          omega
        · simp [hz]
          omega

/-- The regex counting loop never decreases the accumulated count. -/
theorem regexScanAux_occ_le (R : JsRegexExec) (line : Str) :
    ∀ (fuel l occ : Nat) (fIdx : Int) (fLen : Nat) (r : Nat × Int × Nat),
      regexScanAux R line l occ fIdx fLen fuel = some r → occ ≤ r.1 := by
  intro fuel
  induction fuel with
  | zero =>
    intro l occ fIdx fLen r h
    simp [regexScanAux] at h
  | succ fuel ih =>
    intro l occ fIdx fLen r h
    simp only [regexScanAux] at h
    cases hx : R.exec line l with
    | none =>
      rw [hx] at h
      injection h with h2
      subst h2
      simp
    | some pr =>
      rw [hx] at h
      obtain ⟨i, len⟩ := pr
      simp only [] at h
      have := ih _ _ _ _ _ h
      omega

/-! ### Per-line positivity: a line whose head matches is always recorded -/

/-- A substring scan (without the whole-word filter) on a line whose head
matches the query reports at least one occurrence. -/
theorem scanLineSub_pos_of_head {origLine target nq : Str}
    (h0 : 0 < target.length) (hm : matchesAt target nq 0 = true) :
    0 < (scanLineSubAux origLine target nq false 0 0 (-1) (target.length + 1)).1 := by
  simp only [scanLineSubAux]
  rw [if_pos h0, jsIndexOf_eq_leastMatchFrom, leastMatchFrom_step,
    if_pos ⟨Nat.zero_le _, hm⟩]
  simp only [Bool.not_false, Bool.true_or, if_pos rfl]
  calc 0 < 1 := Nat.zero_lt_one
    _ ≤ _ := scanLineSubAux_occ_le origLine target nq false _ _ 1 _

/-- One unfolding step of the regex scanning loop. -/
theorem regexScanAux_succ (R : JsRegexExec) (line : Str)
    (l occ : Nat) (fIdx : Int) (fLen fuel : Nat) :
    regexScanAux R line l occ fIdx fLen (fuel + 1) =
      match R.exec line l with
      | none => some (occ, fIdx, fLen)
      | some (i, len) =>
        regexScanAux R line (i + len + (if len = 0 then 1 else 0)) (occ + 1)
          (if fIdx == -1 then (i : Int) else fIdx)
          (if fIdx == -1 then max 1 len else fLen) fuel := rfl

/-- With sufficient fuel, the scanning loop's count is at least the
accumulated count. -/
theorem regexScanAux_getD_ge (R : JsRegexExec) (line : Str)
    (fuel l occ : Nat) (fIdx : Int) (fLen : Nat)
    (h1 : l ≤ line.length + 1) (h2 : line.length + 2 ≤ l + fuel) :
    occ ≤ ((regexScanAux R line l occ fIdx fLen fuel).getD (0, -1, 0)).1 := by
  obtain ⟨r, hr⟩ := Option.isSome_iff_exists.mp
    (regexScanAux_isSome R line fuel l occ fIdx fLen h1 h2)
  rw [hr]
  exact regexScanAux_occ_le R line fuel l occ fIdx fLen r hr

/-- A regex scan on a line where the engine finds a first match reports at
least one occurrence. -/
theorem lineScanRegex_pos (R : JsRegexExec) (line : Str) {i0 len0 : Nat}
    (hx : R.exec line 0 = some (i0, len0)) : 0 < (lineScanRegex R line).1 := by
  have hge := R.exec_ge line 0 i0 len0 hx
  have hin := R.exec_inBounds line 0 i0 len0 hx
  unfold lineScanRegex
  rw [show line.length + 2 = (line.length + 1) + 1 from rfl, regexScanAux_succ, hx]
  refine lt_of_lt_of_le (by omega)
    (regexScanAux_getD_ge R line (line.length + 1) _ _ _ _ ?_ ?_)
  · by_cases hz : len0 = 0
    · simp [hz]
      omega
    · simp [hz]
      omega
  · by_cases hz : len0 = 0
    · simp [hz]
      omega
    · simp [hz]
      omega

/-! ### The concrete 501-line truncation document -/

/-- Line `i` of the truncation fixture: the query `"q"` followed by `i`
copies of `x`, so all lines are pairwise distinct and each contains the
query. -/
def truncLine (i : Nat) : Str := 'q' :: List.replicate i 'x'

/-- A document of 501 distinct lines, each containing the query `"q"`. -/
def truncLines : List Str := (List.range 501).map truncLine

theorem truncLine_injective : Function.Injective truncLine := by
  intro a b h
  have := congrArg List.length h
  simpa [truncLine] using this

theorem truncLines_nodup : truncLines.Nodup :=
  (List.nodup_range 501).map truncLine_injective

theorem truncLines_length : truncLines.length = 501 := by
  simp [truncLines]

theorem truncLine_head_match (i : Nat) :
    matchesAt (truncLine i) (chars "q") 0 = true := by
  simp [truncLine, matchesAt, chars, List.isPrefixOf]

theorem mem_truncLines_matches {line : Str} (h : line ∈ truncLines) :
    matchesAt line (chars "q") 0 = true := by
  simp only [truncLines, List.mem_map] at h
  obtain ⟨i, -, rfl⟩ := h
  exact truncLine_head_match i

/-- Every line of the fixture is recorded by the substring scan. -/
theorem truncLines_sub_matched :
    matchedEnum (lineScanSub (chars "q") ⟨true, false, false⟩) truncLines 0 =
      List.enumFrom 0 truncLines := by
  unfold matchedEnum
  rw [List.filter_eq_self]
  intro p hp
  obtain ⟨-, -, h3⟩ := List.mem_enumFrom hp
  have hmem : p.2 ∈ truncLines := h3 ▸ List.getElem_mem _
  have hm := mem_truncLines_matches hmem
  have hlen : 0 < p.2.length := by
    rcases hxx : p.2 with _ | _
    · rw [hxx] at hm
      simp [matchesAt, chars, List.isPrefixOf] at hm
    · simp
  simp only [lineScanSub, if_pos rfl, decide_eq_true_eq]
  exact scanLineSub_pos_of_head hlen hm

/-- The concrete regex compiler for the truncation fixture: models
`new RegExp("q", "g")`, the exact source and flags `searchByRegex` builds
for query `"q"` with `caseSensitive = true` and `wholeWord = false`. -/
def compileLitQ : Str → Str → Option JsRegexExec := fun src flags =>
  if src == chars "q" && flags == chars "g" then some (literalExec (chars "q"))
  else none

/-- Every line of the fixture is recorded by the regex scan. -/
theorem truncLines_regex_matched :
    matchedEnum (lineScanRegex (literalExec (chars "q"))) truncLines 0 =
      List.enumFrom 0 truncLines := by
  unfold matchedEnum
  rw [List.filter_eq_self]
  intro p hp
  obtain ⟨-, -, h3⟩ := List.mem_enumFrom hp
  have hmem : p.2 ∈ truncLines := h3 ▸ List.getElem_mem _
  have hm := mem_truncLines_matches hmem
  have hexec : (literalExec (chars "q")).exec p.2 0 = some (0, (chars "q").length) := by
    show (if p.2.length < 0 then none
      else (leastMatchFrom p.2 (chars "q") 0).map (fun p => (p, (chars "q").length))) =
        some (0, (chars "q").length)
    rw [if_neg (by omega), leastMatchFrom_step, if_pos ⟨Nat.zero_le _, hm⟩]
    rfl
  simp only [decide_eq_true_eq]
  exact lineScanRegex_pos _ _ hexec

/-! ### Claim theorems -/

/-- C7: for every list of lines and every options value, if the query is
empty after trimming leading/trailing whitespace (including the
whitespace-only case), search returns the idle result
`{matches: [], totalOccurrences: 0, totalMatchedLines: 0, isTruncated:
false, errorMessage: null}`, regardless of the lines' content. -/
theorem claim7_empty_query :
    ∀ (compile : Str → Str → Option JsRegexExec) (lines : List Str)
      (rawQuery : Str) (o : SearchOptions),
      jsTrim rawQuery = [] →
      searchDocument compile lines rawQuery o =
        { «matches» := []
          totalOccurrences := 0
          totalMatchedLines := 0
          isTruncated := false
          errorMessage := none } := by
  intro compile lines rawQuery o h
  unfold searchDocument
  rw [h]
  rfl

/-- Witness for C7: a whitespace-only raw query on a non-trivial document
yields the idle result. -/
theorem claim7_empty_query_witness :
    jsTrim (chars "  \t ") = [] ∧
    searchDocument (fun _ _ => none) [chars "hello", chars "world"]
      (chars "  \t ") ⟨true, true, true⟩ =
      { «matches» := []
        totalOccurrences := 0
        totalMatchedLines := 0
        isTruncated := false
        errorMessage := none } :=
  ⟨by decide, claim7_empty_query (fun _ _ => none)
    [chars "hello", chars "world"] (chars "  \t ") ⟨true, true, true⟩ (by decide)⟩

/-- C3: for every list of lines and options with `regex = true`, if the
pattern fails to compile, search does not raise an error to the caller: it
returns a `SearchResult` whose `errorMessage` is the fixed message
`"Invalid regular expression."`, whose `matches` is empty, and whose
`totalOccurrences` and `totalMatchedLines` are both zero. -/
theorem claim3_invalid_regex :
    ∀ (compile : Str → Str → Option JsRegexExec) (lines : List Str)
      (query : Str) (o : SearchOptions),
      query ≠ [] → o.regex = true →
      compile (regexSource query o) (regexFlags o) = none →
      searchMarkdownLines compile lines query o =
        { «matches» := []
          totalOccurrences := 0
          totalMatchedLines := 0
          isTruncated := false
          errorMessage := some (chars "Invalid regular expression.") } := by
  intro compile lines query o hq hr hc
  unfold searchMarkdownLines searchByRegex
  rw [if_neg hq, hr, if_pos rfl, hc]
  rfl

/-- Witness for C3: the never-compiling pattern `"("` in regex mode
produces the fixed error result. -/
theorem claim3_invalid_regex_witness :
    chars "(" ≠ [] ∧
    (⟨false, false, true⟩ : SearchOptions).regex = true ∧
    searchMarkdownLines (fun _ _ => none) [chars "alpha", chars "beta"]
      (chars "(") ⟨false, false, true⟩ =
      { «matches» := []
        totalOccurrences := 0
        totalMatchedLines := 0
        isTruncated := false
        errorMessage := some (chars "Invalid regular expression.") } :=
  ⟨by decide, rfl, claim3_invalid_regex (fun _ _ => none)
    [chars "alpha", chars "beta"] (chars "(") ⟨false, false, true⟩
    (by decide) rfl rfl⟩

/-- C2: for every line and every compilable pattern (any engine satisfying
the ECMAScript `exec` interface), regex-mode scanning of the line
terminates with fuel `line.length + 2`, because the cursor advances by at
least one position after every match (zero-length matches included); in
particular the pattern `a*` against any non-empty line terminates, and
against `"bbb"` returns the finite, non-negative occurrence count `4`. -/
theorem claim2_regex_scan_terminates :
    (∀ (R : JsRegexExec) (line : Str),
      (regexScanAux R line 0 0 (-1) 0 (line.length + 2)).isSome = true) ∧
    (∀ line : Str, line ≠ [] →
      (regexScanAux aStarExec line 0 0 (-1) 0 (line.length + 2)).isSome = true) ∧
    regexScanAux aStarExec (chars "bbb") 0 0 (-1) 0 ((chars "bbb").length + 2) =
      some (4, 0, 1) := by
  refine ⟨?_, ?_, by decide⟩
  · intro R line
    exact regexScanAux_isSome R line (line.length + 2) 0 0 (-1) 0 (by omega) (by omega)
  · intro line _
    exact regexScanAux_isSome aStarExec line (line.length + 2) 0 0 (-1) 0
      (by omega) (by omega)

/-- Witness for C2: the `a*` scan of the non-empty line `"b"` terminates. -/
theorem claim2_regex_scan_terminates_witness :
    chars "b" ≠ [] ∧
    (regexScanAux aStarExec (chars "b") 0 0 (-1) 0 ((chars "b").length + 2)).isSome = true :=
  ⟨by decide, claim2_regex_scan_terminates.2.1 (chars "b") (by decide)⟩

/-- The cap and error invariants of results produced by the shared loop. -/
theorem searchLoop_invariants (scan : Str → Nat × Int × Nat)
    (lines : List Str) (n : Nat) :
    ((searchLoop scan lines n []).isTruncated = true →
      (searchLoop scan lines n []).«matches».length = MAX_MATCH_LINES ∧
      (searchLoop scan lines n []).errorMessage = none) ∧
    ((searchLoop scan lines n []).errorMessage ≠ none →
      (searchLoop scan lines n []).isTruncated = false) := by
  constructor
  · intro htr
    have h := searchLoop_trunc_cap scan lines n [] (by simp [MAX_MATCH_LINES]) htr
    exact ⟨h.1, h.2.1⟩
  · intro herr
    cases hb : (searchLoop scan lines n []).isTruncated
    · rfl
    · exact absurd (searchLoop_trunc_cap scan lines n []
        (by simp [MAX_MATCH_LINES]) hb).2.1 herr

/-- C8: for every input on which search returns a result with
`isTruncated = false` and `errorMessage = null`, `totalOccurrences` equals
the sum of the `occurrences` fields over all returned `LineMatch` entries,
and `totalMatchedLines` equals the number of `LineMatch` entries, in both
substring and regex mode. -/
theorem claim8_totals :
    ∀ (compile : Str → Str → Option JsRegexExec) (lines : List Str)
      (query : Str) (o : SearchOptions),
      (searchMarkdownLines compile lines query o).isTruncated = false →
      (searchMarkdownLines compile lines query o).errorMessage = none →
      (searchMarkdownLines compile lines query o).totalOccurrences =
        ((((searchMarkdownLines compile lines query o).«matches».map
          (·.occurrences)).sum : Nat) : Int) ∧
      (searchMarkdownLines compile lines query o).totalMatchedLines =
        (((searchMarkdownLines compile lines query o).«matches».length : Nat) : Int) := by
  intro compile lines query o htr herr
  by_cases hq : query = []
  · simp [searchMarkdownLines, hq, idleResult]
  · cases hro : o.regex with
    | false =>
      have hsm : searchMarkdownLines compile lines query o =
          searchLoop (lineScanSub query o) lines 0 [] := by
        simp [searchMarkdownLines, searchBySubstring, hq, hro]
      rw [hsm] at htr ⊢
      obtain ⟨a, b, -⟩ := searchLoop_not_truncated (lineScanSub query o) lines 0 [] htr
      exact ⟨a, b⟩
    | true =>
      cases hc : compile (regexSource query o) (regexFlags o) with
      | none =>
        have hsm : searchMarkdownLines compile lines query o = invalidRegexResult := by
          simp [searchMarkdownLines, searchByRegex, hq, hro, hc]
        rw [hsm] at herr
        simp [invalidRegexResult] at herr
      | some R =>
        have hsm : searchMarkdownLines compile lines query o =
            searchLoop (lineScanRegex R) lines 0 [] := by
          simp [searchMarkdownLines, searchByRegex, hq, hro, hc]
        rw [hsm] at htr ⊢
        obtain ⟨a, b, -⟩ := searchLoop_not_truncated (lineScanRegex R) lines 0 [] htr
        exact ⟨a, b⟩

/-- Witness for C8: a non-truncated, error-free substring search reports
the sum and count of its match entries. -/
theorem claim8_totals_witness :
    (searchMarkdownLines (fun _ _ => none) [chars "concatenate cat category"]
      (chars "cat") ⟨false, false, false⟩).isTruncated = false ∧
    (searchMarkdownLines (fun _ _ => none) [chars "concatenate cat category"]
      (chars "cat") ⟨false, false, false⟩).totalOccurrences =
      ((((searchMarkdownLines (fun _ _ => none) [chars "concatenate cat category"]
        (chars "cat") ⟨false, false, false⟩).«matches».map
        (·.occurrences)).sum : Nat) : Int) :=
  ⟨by decide, (claim8_totals (fun _ _ => none) [chars "concatenate cat category"]
    (chars "cat") ⟨false, false, false⟩ (by decide) (by decide)).1⟩

/-- C10: every `SearchResult` returned by search satisfies: if
`isTruncated` is true then `matches` contains exactly `MAX_MATCH_LINES`
(500) entries and `errorMessage` is null, and if `errorMessage` is non-null
then `isTruncated` is false — truncation and pattern error are mutually
exclusive outcomes. -/
theorem claim10_invariants :
    ∀ (compile : Str → Str → Option JsRegexExec) (lines : List Str)
      (query : Str) (o : SearchOptions),
      ((searchMarkdownLines compile lines query o).isTruncated = true →
        (searchMarkdownLines compile lines query o).«matches».length = MAX_MATCH_LINES ∧
        (searchMarkdownLines compile lines query o).errorMessage = none) ∧
      ((searchMarkdownLines compile lines query o).errorMessage ≠ none →
        (searchMarkdownLines compile lines query o).isTruncated = false) := by
  intro compile lines query o
  by_cases hq : query = []
  · have hsm : searchMarkdownLines compile lines query o = idleResult := by
      simp [searchMarkdownLines, hq]
    rw [hsm]
    exact ⟨fun htr => absurd htr (by simp [idleResult]), fun _ => rfl⟩
  · cases hro : o.regex with
    | false =>
      have hsm : searchMarkdownLines compile lines query o =
          searchLoop (lineScanSub query o) lines 0 [] := by
        simp [searchMarkdownLines, searchBySubstring, hq, hro]
      rw [hsm]
      exact searchLoop_invariants (lineScanSub query o) lines 0
    | true =>
      cases hc : compile (regexSource query o) (regexFlags o) with
      | none =>
        have hsm : searchMarkdownLines compile lines query o = invalidRegexResult := by
          simp [searchMarkdownLines, searchByRegex, hq, hro, hc]
        rw [hsm]
        exact ⟨fun htr => absurd htr (by simp [invalidRegexResult]), fun _ => rfl⟩
      | some R =>
        have hsm : searchMarkdownLines compile lines query o =
            searchLoop (lineScanRegex R) lines 0 [] := by
          simp [searchMarkdownLines, searchByRegex, hq, hro, hc]
        rw [hsm]
        exact searchLoop_invariants (lineScanRegex R) lines 0

/-- Substring mode truncates exactly at the cap: when more than
`MAX_MATCH_LINES` lines match, the result is the sentinel record holding
the first `MAX_MATCH_LINES` matching lines in ascending order. -/
theorem searchBySubstring_truncates
    (lines : List Str) (query : Str) (o : SearchOptions)
    (h : MAX_MATCH_LINES < (matchedEnum (lineScanSub query o) lines 0).length) :
    searchBySubstring lines query o =
      { «matches» := ((matchedEnum (lineScanSub query o) lines 0).take
          MAX_MATCH_LINES).map (mkLineMatch (lineScanSub query o))
        totalOccurrences := -1
        totalMatchedLines := -1
        isTruncated := true
        errorMessage := none } := by
  unfold searchBySubstring
  have hmain := searchLoop_truncates (lineScanSub query o) lines 0 []
    (by simp [MAX_MATCH_LINES]) (by simpa using h)
  simpa using hmain

/-- Regex mode truncates exactly at the cap, for any successfully compiled
engine. -/
theorem searchByRegex_truncates
    (compile : Str → Str → Option JsRegexExec) (lines : List Str)
    (query : Str) (o : SearchOptions) (R : JsRegexExec)
    (hc : compile (regexSource query o) (regexFlags o) = some R)
    (h : MAX_MATCH_LINES < (matchedEnum (lineScanRegex R) lines 0).length) :
    searchByRegex compile lines query o =
      { «matches» := ((matchedEnum (lineScanRegex R) lines 0).take
          MAX_MATCH_LINES).map (mkLineMatch (lineScanRegex R))
        totalOccurrences := -1
        totalMatchedLines := -1
        isTruncated := true
        errorMessage := none } := by
  unfold searchByRegex
  rw [hc]
  have hmain := searchLoop_truncates (lineScanRegex R) lines 0 []
    (by simp [MAX_MATCH_LINES]) (by simpa using h)
  simpa using hmain

/-- The fixture document exceeds the cap in substring mode. -/
theorem truncLines_sub_matched_length :
    MAX_MATCH_LINES <
      (matchedEnum (lineScanSub (chars "q") ⟨true, false, false⟩) truncLines 0).length := by
  rw [truncLines_sub_matched, List.enumFrom_length, truncLines_length]
  decide

/-- The fixture document exceeds the cap in regex mode. -/
theorem truncLines_regex_matched_length :
    MAX_MATCH_LINES <
      (matchedEnum (lineScanRegex (literalExec (chars "q"))) truncLines 0).length := by
  rw [truncLines_regex_matched, List.enumFrom_length, truncLines_length]
  decide

/-- C1: for every list of lines, query, and options, search processes
lines in ascending order, and the moment the count of
lines-with-matches-found-so-far would exceed the fixed cap of
`MAX_MATCH_LINES = 500` it stops and returns the partial matches collected
up to (not including) the line that would exceed the cap, with
`isTruncated = true` and `totalOccurrences = totalMatchedLines = -1`; in
particular, for a document of 501 distinct lines each containing the
query, the result has `isTruncated = true`, `matches.length = 500`,
`totalOccurrences = -1` and `totalMatchedLines = -1`, identically in
substring and regex mode. -/
theorem claim1_truncation_cap :
    (∀ (lines : List Str) (query : Str) (o : SearchOptions),
      MAX_MATCH_LINES < (matchedEnum (lineScanSub query o) lines 0).length →
      searchBySubstring lines query o =
        { «matches» := ((matchedEnum (lineScanSub query o) lines 0).take
            MAX_MATCH_LINES).map (mkLineMatch (lineScanSub query o))
          totalOccurrences := -1
          totalMatchedLines := -1
          isTruncated := true
          errorMessage := none }) ∧
    (∀ (compile : Str → Str → Option JsRegexExec) (lines : List Str)
       (query : Str) (o : SearchOptions) (R : JsRegexExec),
      compile (regexSource query o) (regexFlags o) = some R →
      MAX_MATCH_LINES < (matchedEnum (lineScanRegex R) lines 0).length →
      searchByRegex compile lines query o =
        { «matches» := ((matchedEnum (lineScanRegex R) lines 0).take
            MAX_MATCH_LINES).map (mkLineMatch (lineScanRegex R))
          totalOccurrences := -1
          totalMatchedLines := -1
          isTruncated := true
          errorMessage := none }) ∧
    truncLines.Nodup ∧ truncLines.length = 501 ∧
    (∀ line ∈ truncLines, matchesAt line (chars "q") 0 = true) ∧
    ((searchBySubstring truncLines (chars "q") ⟨true, false, false⟩).isTruncated = true ∧
      (searchBySubstring truncLines (chars "q") ⟨true, false, false⟩).«matches».length = 500 ∧
      (searchBySubstring truncLines (chars "q") ⟨true, false, false⟩).totalOccurrences = -1 ∧
      (searchBySubstring truncLines (chars "q") ⟨true, false, false⟩).totalMatchedLines = -1) ∧
    ((searchMarkdownLines compileLitQ truncLines (chars "q") ⟨true, false, true⟩).isTruncated = true ∧
      (searchMarkdownLines compileLitQ truncLines (chars "q") ⟨true, false, true⟩).«matches».length = 500 ∧
      (searchMarkdownLines compileLitQ truncLines (chars "q") ⟨true, false, true⟩).totalOccurrences = -1 ∧
      (searchMarkdownLines compileLitQ truncLines (chars "q") ⟨true, false, true⟩).totalMatchedLines = -1) := by
  refine ⟨searchBySubstring_truncates, searchByRegex_truncates, truncLines_nodup,
    truncLines_length, fun line hl => mem_truncLines_matches hl, ?_, ?_⟩
  · rw [searchBySubstring_truncates truncLines (chars "q") ⟨true, false, false⟩
      truncLines_sub_matched_length]
    refine ⟨rfl, ?_, rfl, rfl⟩
    rw [List.length_map, List.length_take, truncLines_sub_matched,
      List.enumFrom_length, truncLines_length]
    decide
  · have hsm : searchMarkdownLines compileLitQ truncLines (chars "q") ⟨true, false, true⟩ =
        searchByRegex compileLitQ truncLines (chars "q") ⟨true, false, true⟩ := by
      simp [searchMarkdownLines, show chars "q" ≠ [] from by decide]
    have hc : compileLitQ (regexSource (chars "q") ⟨true, false, true⟩)
        (regexFlags ⟨true, false, true⟩) = some (literalExec (chars "q")) := rfl
    rw [hsm, searchByRegex_truncates compileLitQ truncLines (chars "q")
      ⟨true, false, true⟩ (literalExec (chars "q")) hc truncLines_regex_matched_length]
    refine ⟨rfl, ?_, rfl, rfl⟩
    rw [List.length_map, List.length_take, truncLines_regex_matched,
      List.enumFrom_length, truncLines_length]
    decide

/-- Witness for C1: the fixture document exceeds the cap in substring
mode, and the search on it is truncated. -/
theorem claim1_truncation_cap_witness :
    MAX_MATCH_LINES <
      (matchedEnum (lineScanSub (chars "q") ⟨true, false, false⟩) truncLines 0).length ∧
    (searchBySubstring truncLines (chars "q") ⟨true, false, false⟩).isTruncated = true :=
  ⟨truncLines_sub_matched_length, by
    rw [claim1_truncation_cap.1 truncLines (chars "q") ⟨true, false, false⟩
      truncLines_sub_matched_length]⟩

/-- Witness for C10: a genuinely truncated search (the 501-line fixture)
has exactly `MAX_MATCH_LINES` match entries and no error message. -/
theorem claim10_invariants_witness :
    (searchMarkdownLines (fun _ _ => none) truncLines (chars "q")
      ⟨true, false, false⟩).isTruncated = true ∧
    (searchMarkdownLines (fun _ _ => none) truncLines (chars "q")
      ⟨true, false, false⟩).«matches».length = MAX_MATCH_LINES ∧
    (searchMarkdownLines (fun _ _ => none) truncLines (chars "q")
      ⟨true, false, false⟩).errorMessage = none := by
  have hsm : searchMarkdownLines (fun _ _ => none) truncLines (chars "q")
      ⟨true, false, false⟩ =
      searchBySubstring truncLines (chars "q") ⟨true, false, false⟩ := by
    simp [searchMarkdownLines, show chars "q" ≠ [] from by decide]
  have htr : (searchMarkdownLines (fun _ _ => none) truncLines (chars "q")
      ⟨true, false, false⟩).isTruncated = true := by
    rw [hsm, searchBySubstring_truncates truncLines (chars "q") ⟨true, false, false⟩
      truncLines_sub_matched_length]
  exact ⟨htr, (claim10_invariants (fun _ _ => none) truncLines (chars "q")
    ⟨true, false, false⟩).1 htr⟩

/-- The per-line occurrence count of substring mode equals the number of
accepted positions of the spec-side repeated scan over the case-normalised
line and query. -/
theorem lineScanSub_count (query : Str) (o : SearchOptions) (line : Str) :
    (lineScanSub query o line).1 =
      ((specScanPositions (if o.caseSensitive then line else toLowerStr line)
          (if o.caseSensitive then query else toLowerStr query)).filter
        (fun p => !o.wholeWord || hasWordBoundaries line p
          (if o.caseSensitive then query else toLowerStr query).length)).length := by
  unfold lineScanSub specScanPositions
  dsimp only
  rw [scanLineSubAux_count]
  simp

/-- C6: in substring mode, for every line and every query, occurrences are
found by a left-to-right non-overlapping scan in which, after a candidate
match at position `p`, scanning resumes at `p + max 1 query.length`
(lowercasing line and query first when `caseSensitive` is false); the
reported per-line occurrence count equals the number of matches found by
this repeated scan, and every `LineMatch` the search returns carries
exactly that count for its line. -/
theorem claim6_substring_scan :
    (∀ (line query : Str) (o : SearchOptions),
      (lineScanSub query o line).1 =
        ((specScanPositions (if o.caseSensitive then line else toLowerStr line)
            (if o.caseSensitive then query else toLowerStr query)).filter
          (fun p => !o.wholeWord || hasWordBoundaries line p
            (if o.caseSensitive then query else toLowerStr query).length)).length) ∧
    (∀ (compile : Str → Str → Option JsRegexExec) (lines : List Str)
       (query : Str) (o : SearchOptions) (m : LineMatch),
      o.regex = false →
      m ∈ (searchMarkdownLines compile lines query o).«matches» →
      ∃ line, lines.get? (m.lineNumber - 1) = some line ∧
        m.occurrences = (lineScanSub query o line).1 ∧ 0 < m.occurrences) := by
  constructor
  · intro line query o
    exact lineScanSub_count query o line
  · intro compile lines query o m hro hm
    by_cases hq : query = []
    · rw [show searchMarkdownLines compile lines query o = idleResult from by
        simp [searchMarkdownLines, hq]] at hm
      simp [idleResult] at hm
    · have hsm : searchMarkdownLines compile lines query o =
          searchLoop (lineScanSub query o) lines 0 [] := by
        simp [searchMarkdownLines, searchBySubstring, hq, hro]
      rw [hsm] at hm
      rcases searchLoop_mem (lineScanSub query o) lines 0 [] m hm with h | ⟨p, hp, hpos, rfl⟩
      · simp at h
      · obtain ⟨-, hg⟩ := enumFrom_get? hp
        refine ⟨p.2, ?_, rfl, hpos⟩
        simpa using hg

/-- Witness for C6: the single-line document `"concatenate cat category"`
searched for `"cat"` (no whole-word) returns the entry for line 1 with
exactly the scan's count of 3 occurrences. -/
theorem claim6_substring_scan_witness :
    (⟨false, false, false⟩ : SearchOptions).regex = false ∧
    (⟨1, 3, chars "concatenate cat category"⟩ : LineMatch) ∈
      (searchMarkdownLines (fun _ _ => none) [chars "concatenate cat category"]
        (chars "cat") ⟨false, false, false⟩).«matches» ∧
    ∃ line, [chars "concatenate cat category"].get?
        ((⟨1, 3, chars "concatenate cat category"⟩ : LineMatch).lineNumber - 1) =
        some line ∧
      (⟨1, 3, chars "concatenate cat category"⟩ : LineMatch).occurrences =
        (lineScanSub (chars "cat") ⟨false, false, false⟩ line).1 ∧
      0 < (⟨1, 3, chars "concatenate cat category"⟩ : LineMatch).occurrences :=
  ⟨rfl, by decide, claim6_substring_scan.2 (fun _ _ => none)
    [chars "concatenate cat category"] (chars "cat") ⟨false, false, false⟩
    ⟨1, 3, chars "concatenate cat category"⟩ rfl (by decide)⟩

/-- C4: in substring mode with `wholeWord = true`, a candidate occurrence
is counted if and only if the characters immediately before and after the
matched span (out-of-bounds reading as non-word) are both not word
characters, where `isWordCharacter` embeds the Unicode
letter/digit/underscore class; in particular, `"cat"` against
`"concatenate cat category"` yields exactly 1 occurrence with
`wholeWord = true` and 3 with `wholeWord = false`. -/
theorem claim4_whole_word :
    (∀ (line query : Str) (o : SearchOptions), o.wholeWord = true →
      (lineScanSub query o line).1 =
        ((specScanPositions (if o.caseSensitive then line else toLowerStr line)
            (if o.caseSensitive then query else toLowerStr query)).filter
          (fun p => hasWordBoundaries line p
            (if o.caseSensitive then query else toLowerStr query).length)).length) ∧
    (∀ (line : Str) (p l : Nat),
      hasWordBoundaries line p l = true ↔
        ((p = 0 ∨ ((line.get? (p - 1)).map isWordCharacter).getD false = false) ∧
         ((line.get? (p + l)).map isWordCharacter).getD false = false)) ∧
    (searchBySubstring [chars "concatenate cat category"] (chars "cat")
      ⟨false, true, false⟩).totalOccurrences = 1 ∧
    (searchBySubstring [chars "concatenate cat category"] (chars "cat")
      ⟨false, false, false⟩).totalOccurrences = 3 := by
  refine ⟨?_, ?_, by decide, by decide⟩
  · intro line query o hww
    rw [lineScanSub_count]
    simp [hww]
  · intro line p l
    by_cases hp : p = 0
    · simp [hasWordBoundaries, hp]
    · simp [hasWordBoundaries, hp]

/-- Witness for C4: the whole-word count of `"cat"` in
`"concatenate cat category"` equals the boundary-filtered scan count. -/
theorem claim4_whole_word_witness :
    (⟨false, true, false⟩ : SearchOptions).wholeWord = true ∧
    (lineScanSub (chars "cat") ⟨false, true, false⟩
      (chars "concatenate cat category")).1 =
      ((specScanPositions (toLowerStr (chars "concatenate cat category"))
          (toLowerStr (chars "cat"))).filter
        (fun p => hasWordBoundaries (chars "concatenate cat category") p
          (toLowerStr (chars "cat")).length)).length :=
  ⟨rfl, claim4_whole_word.1 (chars "concatenate cat category") (chars "cat")
    ⟨false, true, false⟩ rfl⟩

/-- C9: preview returns the fixed placeholder for an empty line; otherwise
it returns the window of `SNIPPET_PADDING = 40` characters before and after
the match span, clamped to line boundaries, prefixed with an ellipsis
marker iff content was cut off on the left and suffixed with one iff
content was cut off on the right; a match at line start produces no
leading ellipsis, and a match more than 40 characters from both line edges
produces both markers. -/
theorem claim9_preview :
    (∀ (i : Int) (l : Nat), createPreview [] i l = chars "(empty line)") ∧
    (∀ (line : Str) (i : Int) (l : Nat), line ≠ [] →
      createPreview line i l =
        (if SNIPPET_PADDING < (max 0 i).toNat then chars "..." else []) ++
        ((line.drop ((max 0 i).toNat - SNIPPET_PADDING)).take
          (min line.length ((max 0 i).toNat + max 1 l + SNIPPET_PADDING) -
            ((max 0 i).toNat - SNIPPET_PADDING))) ++
        (if (max 0 i).toNat + max 1 l + SNIPPET_PADDING < line.length
          then chars "..." else [])) ∧
    (∀ (line : Str) (l : Nat), line ≠ [] →
      createPreview line 0 l =
        line.take (min line.length (max 1 l + SNIPPET_PADDING)) ++
        (if max 1 l + SNIPPET_PADDING < line.length then chars "..." else [])) ∧
    (∀ (line : Str) (i : Int) (l : Nat),
      SNIPPET_PADDING < (max 0 i).toNat →
      (max 0 i).toNat + max 1 l + SNIPPET_PADDING < line.length →
      ∃ mid : Str, createPreview line i l = chars "..." ++ mid ++ chars "...") := by
  have hb : ∀ (line : Str) (i : Int) (l : Nat), line ≠ [] →
      createPreview line i l =
        (if SNIPPET_PADDING < (max 0 i).toNat then chars "..." else []) ++
        ((line.drop ((max 0 i).toNat - SNIPPET_PADDING)).take
          (min line.length ((max 0 i).toNat + max 1 l + SNIPPET_PADDING) -
            ((max 0 i).toNat - SNIPPET_PADDING))) ++
        (if (max 0 i).toNat + max 1 l + SNIPPET_PADDING < line.length
          then chars "..." else []) := by
    intro line i l hl
    unfold createPreview
    rw [if_neg hl]
    dsimp only
    generalize (max 0 i).toNat = a
    rw [if_congr (show (0 < a - SNIPPET_PADDING) ↔ (SNIPPET_PADDING < a) by omega)
        rfl rfl,
      if_congr (show (min line.length (a + max 1 l + SNIPPET_PADDING) < line.length) ↔
        (a + max 1 l + SNIPPET_PADDING < line.length) by omega) rfl rfl]
  refine ⟨fun i l => rfl, hb, ?_, ?_⟩
  · intro line l hl
    rw [hb line 0 l hl]
    simp [SNIPPET_PADDING]
  · intro line i l h1 h2
    have hl : line ≠ [] := List.ne_nil_of_length_pos (by omega)
    rw [hb line i l hl, if_pos h1, if_pos h2]
    exact ⟨_, rfl⟩

/-- Witness for C9: a short line with a match at its start gets no
ellipsis, and a match in the middle of a 100-character line gets both. -/
theorem claim9_preview_witness :
    (chars "abc" ≠ [] ∧
      createPreview (chars "abc") 0 1 =
        (if SNIPPET_PADDING < (max 0 (0 : Int)).toNat then chars "..." else []) ++
        (((chars "abc").drop ((max 0 (0 : Int)).toNat - SNIPPET_PADDING)).take
          (min (chars "abc").length
            ((max 0 (0 : Int)).toNat + max 1 1 + SNIPPET_PADDING) -
            ((max 0 (0 : Int)).toNat - SNIPPET_PADDING))) ++
        (if (max 0 (0 : Int)).toNat + max 1 1 + SNIPPET_PADDING <
            (chars "abc").length then chars "..." else [])) ∧
    (SNIPPET_PADDING < (max 0 (50 : Int)).toNat ∧
      (max 0 (50 : Int)).toNat + max 1 1 + SNIPPET_PADDING <
        (List.replicate 100 'z').length ∧
      ∃ mid : Str, createPreview (List.replicate 100 'z') 50 1 =
        chars "..." ++ mid ++ chars "...") :=
  ⟨⟨by decide, claim9_preview.2.1 (chars "abc") 0 1 (by decide)⟩,
    by decide, by decide,
    claim9_preview.2.2.2 (List.replicate 100 'z') 50 1 (by decide) (by decide)⟩

/-- Models the host `RegExp` constructor for the exact source and flags
`searchByRegex` builds for query `"cat"` with `caseSensitive = true` and
`wholeWord = true`: the source `\b(?:cat)\b` with flags `g` compiles to the
engine `boundedLiteralExec (chars "cat")`, whose `\b` assertions use the
ECMAScript ASCII word-character class. -/
def compileWordCat : Str → Str → Option JsRegexExec := fun src flags =>
  if src == wrapWholeWord (chars "cat") && flags == chars "g" then
    some (boundedLiteralExec (chars "cat"))
  else none

/-- C5 counterexample: in regex mode with `wholeWord = true`, the
case-sensitive search for `"cat"` in the line `"caté"` counts 1 occurrence
even though `é` is a Unicode word character — the occurrence is not flanked
by non-word characters under the Unicode classification, whose
flank-filtered count on this line is 0.  Regex whole-word matching
therefore does not use the Unicode-aware classification the claim
states. -/
theorem claim5_counterexample :
    (searchMarkdownLines compileWordCat [chars "caté"] (chars "cat")
      ⟨true, true, true⟩).totalOccurrences = 1 ∧
    isWordCharacter 'é' = true ∧
    ((specScanPositions (chars "caté") (chars "cat")).filter
      (fun p => hasWordBoundaries (chars "caté") p (chars "cat").length)).length = 0 :=
  ⟨by decide, by decide, by decide⟩

/-- C5 amended: in regex mode with `wholeWord = true`, an occurrence of a
literal word pattern is counted only where the whole pattern, as a unit, is
flanked on both sides by string edges or characters outside the ECMAScript
ASCII word class `[A-Za-z0-9_]` (`isAsciiWordChar`) — the class the host
engine's `\b` assertion uses — not the Unicode-aware `isWordCharacter`
classification of substring mode. -/
theorem claim5_amended :
    ∀ (q s : Str) (l p len : Nat),
      q ≠ [] →
      (q.head?.map isAsciiWordChar).getD false = true →
      (q.getLast?.map isAsciiWordChar).getD false = true →
      (boundedLiteralExec q).exec s l = some (p, len) →
      len = q.length ∧ matchesAt s q p = true ∧
      (p = 0 ∨ ((s.get? (p - 1)).map isAsciiWordChar).getD false = false) ∧
      ((s.get? (p + q.length)).map isAsciiWordChar).getD false = false := by
  intro q s l p len hq hhead hlast hex
  have hx : leastBoundedMatchFrom s q l = some p ∧ len = q.length := by
    dsimp only [boundedLiteralExec] at hex
    by_cases hl : s.length < l
    · rw [if_pos hl] at hex
      exact absurd hex (by simp)
    · rw [if_neg hl, Option.map_eq_some'] at hex
      obtain ⟨p', hp', heq⟩ := hex
      injection heq with e1 e2
      subst e1
      exact ⟨hp', e2.symm⟩
  obtain ⟨hlb, hlen⟩ := hx
  obtain ⟨hlp, hps, hmt, hb1, hb2⟩ := leastBoundedMatchFrom_spec hlb
  have hpre : q <+: s.drop p := List.isPrefixOf_iff_prefix.mp hmt
  obtain ⟨t, ht⟩ := hpre
  obtain ⟨c, q', rfl⟩ : ∃ c q', q = c :: q' := by
    cases q with
    | nil => exact absurd rfl hq
    | cons c q' => exact ⟨c, q', rfl⟩
  have hget0 : s.get? p = some c := by
    have h1 : (s.drop p).get? 0 = s.get? p := by
      rw [List.get?_drop]
      simp
    rw [← h1, ← ht]
    rfl
  have hcw : isAsciiWordChar c = true := by simpa using hhead
  have hlast' : ∃ d, s.get? (p + q'.length) = some d ∧ isAsciiWordChar d = true := by
    have hg : s.get? (p + q'.length) = (c :: q').get? ((c :: q').length - 1) := by
      rw [← List.get?_drop, ← ht,
        List.get?_append (by simp)]
      simp
    rw [← List.getLast?_eq_get?] at hg
    cases hgl : (c :: q').getLast? with
    | none => simp at hgl
    | some d =>
      rw [hgl] at hg
      rw [hgl] at hlast
      simp only [Option.map_some', Option.getD_some] at hlast
      exact ⟨d, hg, hlast⟩
  refine ⟨hlen, hmt, ?_, ?_⟩
  · simp only [jsWordBoundary, hget0, Option.map_some', Option.getD_some, hcw] at hb1
    by_cases hp : p = 0
    · exact Or.inl hp
    · rw [if_neg hp] at hb1
      refine Or.inr ?_
      rcases hx2 : ((s.get? (p - 1)).map isAsciiWordChar).getD false with _ | _
      · rfl
      · rw [hx2] at hb1
        simp at hb1
  · obtain ⟨d, hgd, hdw⟩ := hlast'
    have hne : p + (c :: q').length ≠ 0 := by simp
    have hidx : p + (c :: q').length - 1 = p + q'.length := by simp
    simp only [jsWordBoundary, if_neg hne, hidx, hgd, Option.map_some',
      Option.getD_some, hdw] at hb2
    rcases hx2 : ((s.get? (p + (c :: q').length)).map isAsciiWordChar).getD false with _ | _
    · rfl
    · rw [hx2] at hb2
      simp at hb2

/-- Witness for C5 amended: the engine finds `"cat"` in `"a cat b"` at
position 2, and both flanks are outside the ASCII word class. -/
theorem claim5_amended_witness :
    chars "cat" ≠ [] ∧
    ((chars "cat").head?.map isAsciiWordChar).getD false = true ∧
    ((chars "cat").getLast?.map isAsciiWordChar).getD false = true ∧
    (boundedLiteralExec (chars "cat")).exec (chars "a cat b") 0 = some (2, 3) ∧
    (3 = (chars "cat").length ∧ matchesAt (chars "a cat b") (chars "cat") 2 = true ∧
      (2 = 0 ∨ (((chars "a cat b").get? (2 - 1)).map isAsciiWordChar).getD false = false) ∧
      (((chars "a cat b").get? (2 + (chars "cat").length)).map
        isAsciiWordChar).getD false = false) :=
  ⟨by decide, by decide, by decide, by decide,
    claim5_amended (chars "cat") (chars "a cat b") 0 2 3
      (by decide) (by decide) (by decide) (by decide)⟩

end SloppySource
